import Mathlib

/-!
Verification development for the `pray` terminal file browser
(`src/app.rs`, `src/main.rs`).

Shallow embedding conventions:
* A filesystem path (Rust `PathBuf`) is a list of path segments from the
  filesystem root.
* The filesystem is a finite tree (`FSTree`).  A `file` node carries
  `some contents` when `File::open` + `read_to_string` succeed and `none`
  when opening or decoding fails; an `unreadableDir` is a directory whose
  metadata is visible (`is_dir()` is true) but whose `fs::read_dir` fails.
* Operations that can panic in the Rust source (`unwrap`, out-of-bounds
  `Vec` indexing) return `Option` / `Except`: `none` (or the `error` arm,
  which carries the in-memory state at the moment of the panic) models the
  panic, `some` the normal return.
* The `HashSet<PathBuf>` of selected items is modelled as a `List Path`
  whose order stands for the (unspecified) hash-set iteration order;
  membership is the observable state of the set.
* Writing `collections.json` (`save_collections`) is modelled by two ghost
  fields: `store` (the file's content) and `store_writes` (a modification
  marker counting writes).
-/

/-- An absolute filesystem path, as its list of segments from the root
(named `FsPath` because Mathlib already uses the name `Path`). -/
abbrev FsPath : Type := List String

/-- Rust `Display` of a path: segments joined with `/`. -/
def display_path (p : FsPath) : String :=
  String.intercalate "/" p

/-- A snapshot of the filesystem: files (readable or not), readable
directories with their named children, and directories whose listing
fails (permissions, races). -/
inductive FSTree where
  | file (contents : Option String) : FSTree
  | dir (entries : List (String × FSTree)) : FSTree
  | unreadableDir : FSTree

/-- Follow a path down the tree. -/
def FSTree.resolve : FSTree → FsPath → Option FSTree
  | t, [] => some t
  | .dir es, name :: rest =>
      match es.lookup name with
      | some sub => sub.resolve rest
      | none => none
  | _, _ :: _ => none

/-- Rust `path.is_dir()`. -/
def is_dir (fs : FSTree) (p : FsPath) : Bool :=
  match fs.resolve p with
  | some (.dir _) => true
  | some .unreadableDir => true
  | _ => false

/-- Rust `path.is_file()`. -/
def is_file (fs : FSTree) (p : FsPath) : Bool :=
  match fs.resolve p with
  | some (.file _) => true
  | _ => false

/-- Rust `File::open` followed by `read_to_string`: `some` contents on success. -/
def read_file (fs : FSTree) (p : FsPath) : Option String :=
  match fs.resolve p with
  | some (.file c) => c
  | _ => none

/-- Rust `fs::read_dir`: the (unsorted) child paths, or `none` when listing
fails (file, unreadable directory, nonexistent path). -/
def read_dir_paths (fs : FSTree) (p : FsPath) : Option (List FsPath) :=
  match fs.resolve p with
  | some (.dir es) => some (es.map (fun e => p ++ [e.1]))
  | _ => none

/-- Lexicographic comparison of path segment lists (the order behind
`Vec::<PathBuf>::sort`). -/
def path_le : FsPath → FsPath → Bool
  | [], _ => true
  | _ :: _, [] => false
  | a :: as_, b :: bs => if a = b then path_le as_ bs else decide (a < b)

/-- Insertion step of the sort used by `read_directory`. -/
def insert_le (x : FsPath) : List FsPath → List FsPath
  | [] => [x]
  | y :: ys => if path_le x y then x :: y :: ys else y :: insert_le x ys

/-- The `entries.sort()` call on the listing. -/
def sort_paths (l : List FsPath) : List FsPath :=
  l.foldr insert_le []

/-- Model of `App::read_directory` (app.rs): `fs::read_dir(path).unwrap()`, collect
the entry paths, sort.  `none` models the `unwrap` panic when the listing
fails. -/
def read_directory (fs : FSTree) (p : FsPath) : Option (List FsPath) :=
  (read_dir_paths fs p).map sort_paths

mutual

/-- Recursive collection of the regular files beneath a directory:
the walk inside `App::get_all_files_in_dir` (app.rs).  For each child: a
file is pushed, a directory (readable or not) is recursed into; a failing
`read_dir` contributes nothing (`if let Ok(entries)`). -/
def files_under : FSTree → FsPath → List FsPath
  | .dir es, base => files_under_entries es base
  | _, _ => []

def files_under_entries : List (String × FSTree) → FsPath → List FsPath
  | [], _ => []
  | (name, sub) :: rest, base =>
      (match sub with
       | .file _ => [base ++ [name]]
       | .dir _ => files_under sub (base ++ [name])
       | .unreadableDir => files_under sub (base ++ [name])) ++
      files_under_entries rest base

end

/-- The `App::get_all_files_in_dir` entry point: resolve the directory path,
then walk.  A path whose `read_dir` fails yields the empty list. -/
def get_all_files_in_dir (fs : FSTree) (dir : FsPath) : List FsPath :=
  match fs.resolve dir with
  | some t => files_under t dir
  | none => []

/-- Model of `item.strip_prefix(&base).unwrap_or(item)`: the path relative to
`base` when `item` lies beneath it, the path itself otherwise. -/
def rel_path (base item : FsPath) : FsPath :=
  if base.isPrefixOf item then item.drop base.length else item

/-- One collection: `Collection` (app.rs).  `chrono` timestamps are
modelled as naturals. -/
structure Collection where
  name : String
  files : List FsPath
  num_files : Nat
  timestamp : Nat
deriving DecidableEq

/-- The application state: `App` (app.rs), restricted to the fields the
core state machine reads or writes.  `store`/`store_writes` model the
persisted `collections.json` (its content, and a modification marker
counting the writes done by `save_collections`).  Presentation-only
fields (`focused_pane`, `show_help`, scroll state) are omitted. -/
structure App where
  current_dir : FsPath
  directory_entries : List FsPath
  selected_file_index : Nat
  selected_collection_index : Nat
  selected_file_in_collection_index : Nat
  selected_items : List FsPath
  base_dir : FsPath
  navigation_stack : List (FsPath × Nat)
  footer_message : Option String
  message_counter : Nat
  all_selected : Bool
  collections : List Collection
  store : List Collection
  store_writes : Nat
  renaming_collection : Bool
  new_collection_name : String
deriving DecidableEq

/-- Model of `App::enter_directory` (app.rs).  `none` models a panic: either the
out-of-bounds index `self.directory_entries[self.selected_file_index]`
on a non-empty listing, or the `unwrap` inside `read_directory` when the
target directory cannot be listed.  Note the Rust code pushes the
navigation frame and switches `current_dir` before the re-listing that
can panic. -/
def enter_directory (fs : FSTree) (a : App) : Option App :=
  if a.directory_entries.isEmpty then some a
  else
    match a.directory_entries[a.selected_file_index]? with
    | none => none
    | some selected_path =>
        if is_dir fs selected_path then
          match read_directory fs selected_path with
          | some entries =>
              some { a with
                navigation_stack :=
                  (a.current_dir, a.selected_file_index) :: a.navigation_stack,
                current_dir := selected_path,
                directory_entries := entries,
                selected_file_index := 0 }
          | none => none
        else some a

/-- Model of `App::go_back` (app.rs): pop a navigation frame if any, restore the
directory and cursor and re-list.  `none` models the `unwrap` panic when
the restored directory cannot be listed. -/
def go_back (fs : FSTree) (a : App) : Option App :=
  match a.navigation_stack with
  | [] => some a
  | (previous_dir, previous_index) :: rest =>
      match read_directory fs previous_dir with
      | some entries =>
          some { a with
            current_dir := previous_dir,
            directory_entries := entries,
            selected_file_index := previous_index,
            navigation_stack := rest }
      | none => none

/-- Model of `App::is_current_dir_all_selected` (app.rs). -/
def is_current_dir_all_selected (a : App) : Bool :=
  a.directory_entries.all (fun entry => decide (entry ∈ a.selected_items))

/-- Model of `App::toggle_select_all` (app.rs): drop the current directory's
entries from the selection; if they were not all selected, add them all
back in; flip the flag accordingly. -/
def toggle_select_all (a : App) : App :=
  let current_all_selected := is_current_dir_all_selected a
  let retained :=
    a.selected_items.filter (fun item => decide (item ∉ a.directory_entries))
  { a with
    selected_items :=
      if current_all_selected then retained
      else retained ++ a.directory_entries,
    all_selected := !current_all_selected }

/-- The per-file fragment of the export payload: a header naming the
path relative to `base_dir`, then the contents between two six-backtick
fence lines, then a trailing newline; nothing for a file that cannot be
opened or read. -/
def render_block (fs : FSTree) (base : FsPath) (item : FsPath) : String :=
  match read_file fs item with
  | some contents =>
      "------ " ++ display_path (rel_path base item) ++ " ------\n" ++
      "``````\n" ++ contents ++ "\n``````\n"
  | none => ""

/-- The payload-building loop of `App::copy_selected_items_to_clipboard`
(app.rs): fold over the file list, appending header, fence, contents and
closing fence for each file that reads successfully. -/
def render_payload (fs : FSTree) (base : FsPath) (files : List FsPath) : String :=
  files.foldl
    (fun output item =>
      match read_file fs item with
      | some contents =>
          output ++ ("------ " ++ display_path (rel_path base item) ++ " ------\n")
            ++ "``````\n" ++ contents ++ "\n``````\n"
      | none => output)
    ""

/-- The file-list assembly of `App::copy_selected_items_to_clipboard`
(app.rs): each selected file stands for itself, each selected directory
for its recursive file expansion; anything else contributes nothing.
The list order follows the iteration order of `selected_items`. -/
def export_file_list (fs : FSTree) (a : App) : List FsPath :=
  a.selected_items.flatMap
    (fun item =>
      if is_file fs item then [item]
      else if is_dir fs item then get_all_files_in_dir fs item
      else [])

/-- Model of `App::copy_selected_items_to_clipboard` (app.rs).  `clipboardOk`
models whether the clipboard provider/write succeeds; `now` the
`chrono::Local::now()` timestamp.  The `error` arm carries the in-memory
state at the moment the `set_contents(..).unwrap()` panics — nothing on
`self` has been mutated by then.  On success: footer message, a new
`Collection N` appended, store saved, selection and flag cleared. -/
def copy_selected_items_to_clipboard (clipboardOk : Bool) (now : Nat)
    (fs : FSTree) (a : App) : Except App App :=
  let all_files := export_file_list fs a
  let _output := render_payload fs a.base_dir all_files
  if clipboardOk then
    let collection : Collection :=
      { name := "Collection " ++ toString (a.collections.length + 1),
        files := all_files,
        num_files := all_files.length,
        timestamp := now }
    let collections_1 := a.collections ++ [collection]
    .ok { a with
      footer_message := some "Copied to clipboard!",
      message_counter := 5,
      collections := collections_1,
      store := collections_1,
      store_writes := a.store_writes + 1,
      selected_items := [],
      all_selected := false }
  else .error a

/-- Model of `App::remove_selected_collection` (app.rs): no-op on an empty store;
otherwise remove the collection under the cursor (`Vec::remove` panics —
`none` — when the cursor is out of range), clamp the collection cursor,
save. -/
def remove_selected_collection (a : App) : Option App :=
  if a.collections.isEmpty then some a
  else if a.selected_collection_index < a.collections.length then
    let collections_1 := a.collections.eraseIdx a.selected_collection_index
    let idx :=
      if a.selected_collection_index ≥ collections_1.length ∧
          a.selected_collection_index > 0
      then a.selected_collection_index - 1
      else a.selected_collection_index
    some { a with
      collections := collections_1,
      selected_collection_index := idx,
      store := collections_1,
      store_writes := a.store_writes + 1 }
  else none

/-- Model of `App::unselect_file_from_collection` (app.rs): no-op on an empty
store; panic (`none`) when the collection cursor is out of range of a
non-empty store; no-op when the file cursor is not within the file list;
otherwise remove the file, recompute `num_files`, clamp the file cursor,
save. -/
def unselect_file_from_collection (a : App) : Option App :=
  if a.collections.isEmpty then some a
  else
    match a.collections[a.selected_collection_index]? with
    | none => none
    | some c =>
        if a.selected_file_in_collection_index < c.files.length then
          let files_1 := c.files.eraseIdx a.selected_file_in_collection_index
          let c_1 := { c with files := files_1, num_files := files_1.length }
          let idx :=
            if a.selected_file_in_collection_index ≥ files_1.length ∧
                a.selected_file_in_collection_index > 0
            then a.selected_file_in_collection_index - 1
            else a.selected_file_in_collection_index
          some { a with
            collections := a.collections.set a.selected_collection_index c_1,
            selected_file_in_collection_index := idx,
            store := a.collections.set a.selected_collection_index c_1,
            store_writes := a.store_writes + 1 }
        else some a

/-- Model of `App::start_rename` (app.rs): no-op on an empty store; panic (`none`)
when the collection cursor is out of range; otherwise enter rename mode
with the buffer seeded from the current name. -/
def start_rename (a : App) : Option App :=
  if a.collections.isEmpty then some a
  else
    match a.collections[a.selected_collection_index]? with
    | none => none
    | some c =>
        some { a with
          renaming_collection := true,
          new_collection_name := c.name }

/-- Model of `App::confirm_rename` (app.rs): no-op when the store is empty or not
in rename mode; panic (`none`) when the collection cursor is out of
range; otherwise commit the buffer as the name, save, leave rename mode,
clear the buffer, notify. -/
def confirm_rename (a : App) : Option App :=
  if a.collections.isEmpty || !a.renaming_collection then some a
  else
    match a.collections[a.selected_collection_index]? with
    | none => none
    | some c =>
        let collections_1 :=
          a.collections.set a.selected_collection_index
            { c with name := a.new_collection_name }
        some { a with
          collections := collections_1,
          store := collections_1,
          store_writes := a.store_writes + 1,
          renaming_collection := false,
          new_collection_name := "",
          footer_message := some "Collection renamed!",
          message_counter := 5 }

/-- Model of `App::cancel_rename` (app.rs): when in rename mode, leave it, clear
the buffer and notify; nothing is saved. -/
def cancel_rename (a : App) : App :=
  if a.renaming_collection then
    { a with
      renaming_collection := false,
      new_collection_name := "",
      footer_message := some "Rename canceled.",
      message_counter := 5 }
  else a

/-- A raw text edit while in rename mode (`run_app`, main.rs): a typed
character is pushed onto the buffer, backspace pops the last character. -/
inductive EditOp where
  | ins (c : Char) : EditOp
  | del : EditOp
deriving DecidableEq

/-- One edit applied to the state (the `KeyCode::Char` / `Backspace`
arms of the rename branch in `run_app`, main.rs). -/
def apply_edit (a : App) : EditOp → App
  | .ins c => { a with new_collection_name := a.new_collection_name.push c }
  | .del => { a with new_collection_name := a.new_collection_name.dropRight 1 }

/-- A sequence of rename-mode edits. -/
def apply_edits (a : App) (es : List EditOp) : App :=
  es.foldl apply_edit a

/-- The buffer an edit sequence builds from a seed string (the spec's
description of the rename buffer). -/
def build_name (seed : String) (es : List EditOp) : String :=
  es.foldl
    (fun s e =>
      match e with
      | .ins c => s.push c
      | .del => s.dropRight 1)
    seed

/-- The collections-pane `j`/`Down` handler (`run_app`, main.rs): move
the collection cursor down when possible and reset the intra-collection
file cursor. -/
def collections_pane_down (a : App) : App :=
  if a.selected_collection_index + 1 < a.collections.length then
    { a with
      selected_collection_index := a.selected_collection_index + 1,
      selected_file_in_collection_index := 0 }
  else a

/-- The collections-pane `k`/`Up` handler (`run_app`, main.rs): move the
collection cursor up when possible and reset the intra-collection file
cursor. -/
def collections_pane_up (a : App) : App :=
  if a.selected_collection_index > 0 then
    { a with
      selected_collection_index := a.selected_collection_index - 1,
      selected_file_in_collection_index := 0 }
  else a

/-! ### Example states used by concrete witnesses and counterexamples -/

/-- A fully default application state. -/
def app0 : App :=
  { current_dir := [], directory_entries := [], selected_file_index := 0,
    selected_collection_index := 0, selected_file_in_collection_index := 0,
    selected_items := [], base_dir := [], navigation_stack := [],
    footer_message := none, message_counter := 0, all_selected := false,
    collections := [], store := [], store_writes := 0,
    renaming_collection := false, new_collection_name := "" }

/-- A state whose file cursor is past the end of a non-empty listing. -/
def app_oob : App :=
  { app0 with directory_entries := [["a"]], selected_file_index := 1 }

/-- A filesystem with one directory whose listing fails. -/
def fs_locked : FSTree := .dir [("locked", .unreadableDir)]

/-- Cursor on the unreadable directory. -/
def app_locked : App := { app0 with directory_entries := [["locked"]] }

/-- A navigation stack whose saved directory no longer exists. -/
def app_popback : App := { app0 with navigation_stack := [(["gone"], 0)] }

/-- C7: the export command on clipboard failure.  The `error` state is
exactly the pre-call state: no `Collection` appended, the store not
written, the selection and the all-selected flag untouched. -/
theorem clipboard_failure_keeps_state (now : Nat) (fs : FSTree) (a : App) :
    copy_selected_items_to_clipboard false now fs a = .error a := rfl

/-- C2 (amended): descend is a no-op — state returned unchanged, no
panic — when the listing is empty or when the entry under the in-range
cursor is not a directory. -/
theorem enter_directory_noop (fs : FSTree) (a : App)
    (h : a.directory_entries = [] ∨
      ∃ p, a.directory_entries[a.selected_file_index]? = some p ∧
        is_dir fs p = false) :
    enter_directory fs a = some a := by
  rcases h with h | ⟨p, hp, hd⟩
  · simp [enter_directory, h]
  · have hne : a.directory_entries.isEmpty = false := by
      cases hL : a.directory_entries with
      | nil => rw [hL] at hp; simp at hp
      | cons x xs => simp
    simp [enter_directory, hne, hp, hd]

/-- Witness for `enter_directory_noop` on a concrete empty listing. -/
theorem enter_directory_noop_witness :
    enter_directory (FSTree.dir []) app0 = some app0 :=
  enter_directory_noop (FSTree.dir []) app0 (Or.inl rfl)

/-- C2 (counterexample): with a non-empty listing and the cursor out of
range, `enter_directory` is not a no-op: the direct indexing
`self.directory_entries[self.selected_file_index]` panics. -/
theorem enter_directory_oob_panics :
    app_oob.directory_entries ≠ [] ∧
    app_oob.directory_entries.length ≤ app_oob.selected_file_index ∧
    enter_directory (FSTree.dir [("a", FSTree.file (some "x"))]) app_oob = none := by
  refine ⟨by decide, by decide, rfl⟩

/-- C3: listing failure during descend (cursor on a directory whose
`read_dir` fails) and during ascend (popped directory gone) hits the
`fs::read_dir(path).unwrap()` in `App::read_directory`: the code
panics (`none`) instead of returning a `DirectoryUnreadable` error with
the prior state kept. -/
theorem read_directory_failure_panics :
    enter_directory fs_locked app_locked = none ∧
    go_back fs_locked app_popback = none :=
  ⟨rfl, rfl⟩

/-! ### C10: export does not deduplicate a file selected both directly
and via an enclosing selected directory -/

/-- Filesystem for C10: `root/d/f.txt`. -/
def fs_dup : FSTree :=
  .dir [("root", .dir [("d", .dir [("f.txt", .file (some "x"))])])]

/-- Both the directory `root/d` and the file `root/d/f.txt` beneath it
are selected. -/
def app_dup : App :=
  { app0 with
    selected_items := [["root", "d"], ["root", "d", "f.txt"]],
    base_dir := ["root"] }

/-- The doubly reachable file of the C10 scenario. -/
def f_dup : FsPath := ["root", "d", "f.txt"]

/-- C10: with a directory and a file beneath it both selected, the
assembled export list contains the file twice, the created collection
records it twice, and the payload carries its block twice. -/
theorem export_not_deduplicated :
    (export_file_list fs_dup app_dup).count f_dup = 2 ∧
    (copy_selected_items_to_clipboard true 0 fs_dup app_dup).toOption.map
        (fun a2 => a2.collections.map (fun c => c.files.count f_dup)) =
      some [2] ∧
    render_payload fs_dup app_dup.base_dir (export_file_list fs_dup app_dup) =
      render_block fs_dup app_dup.base_dir f_dup ++
        render_block fs_dup app_dup.base_dir f_dup := by
  refine ⟨by decide, by decide, rfl⟩

/-! ### C1: double scoped select-all -/

/-- Membership in the selection after one `toggle_select_all`. -/
theorem mem_toggle_select_all (a : App) (p : FsPath) :
    p ∈ (toggle_select_all a).selected_items ↔
      ((p ∈ a.selected_items ∧ p ∉ a.directory_entries) ∨
        (is_current_dir_all_selected a = false ∧ p ∈ a.directory_entries)) := by
  cases h : is_current_dir_all_selected a <;>
    simp [toggle_select_all, h, List.mem_filter]

/-- The function `toggle_select_all` does not touch the listing. -/
theorem toggle_select_all_entries (a : App) :
    (toggle_select_all a).directory_entries = a.directory_entries := rfl

/-- The all-selected test after one `toggle_select_all`: true exactly
when the listing was not fully selected (everything just got added) or
the listing is empty. -/
theorem all_selected_after_toggle (a : App) :
    is_current_dir_all_selected (toggle_select_all a) =
      (!is_current_dir_all_selected a || a.directory_entries.isEmpty) := by
  cases h : is_current_dir_all_selected a with
  | true =>
    simp only [h, Bool.not_true, Bool.false_or]
    cases hE : a.directory_entries with
    | nil =>
      have : (toggle_select_all a).directory_entries = [] := by
        rw [toggle_select_all_entries, hE]
      simp [is_current_dir_all_selected, this]
    | cons x xs =>
      have hx : x ∈ (toggle_select_all a).directory_entries := by
        rw [toggle_select_all_entries, hE]; exact List.mem_cons_self x xs
      have hnot : x ∉ (toggle_select_all a).selected_items := by
        rw [mem_toggle_select_all]
        rintro (⟨_, hn⟩ | ⟨hc, _⟩)
        · exact hn (by rw [hE]; exact List.mem_cons_self x xs)
        · exact Bool.noConfusion (h.symm.trans hc)
      have : is_current_dir_all_selected (toggle_select_all a) = false := by
        rcases hb : is_current_dir_all_selected (toggle_select_all a) with _ | _
        · rfl
        · exfalso
          have := (List.all_eq_true.mp hb) x hx
          exact hnot (of_decide_eq_true this)
      rw [this]
      simp
  | false =>
    simp only [h, Bool.not_false, Bool.true_or]
    apply List.all_eq_true.mpr
    intro e he
    apply decide_eq_true
    rw [toggle_select_all_entries] at he
    rw [mem_toggle_select_all]
    exact Or.inr ⟨h, he⟩

/-- C1 (amended): after two `toggle_select_all` calls in a row, a path is
selected iff it was selected before and either the whole current listing
had been selected or the path is not a current-listing entry; the
all-selected flag ends up true iff the listing was fully selected and
non-empty.  Hence the pre-call selection set is restored exactly when
the listing was fully selected, or disjoint from the selection; a
partially selected listing ends up fully deselected, and the flag is not
restored in general. -/
theorem toggle_select_all_twice (a : App) :
    (∀ p : FsPath,
      p ∈ (toggle_select_all (toggle_select_all a)).selected_items ↔
        (p ∈ a.selected_items ∧
          (is_current_dir_all_selected a = true ∨ p ∉ a.directory_entries))) ∧
    (toggle_select_all (toggle_select_all a)).all_selected =
      (is_current_dir_all_selected a && !a.directory_entries.isEmpty) := by
  constructor
  · intro p
    rw [mem_toggle_select_all, mem_toggle_select_all, toggle_select_all_entries,
        all_selected_after_toggle]
    cases h : is_current_dir_all_selected a with
    | false =>
      simp [h]
      tauto
    | true =>
      have hall : ∀ e ∈ a.directory_entries, e ∈ a.selected_items := by
        intro e he
        exact of_decide_eq_true ((List.all_eq_true.mp h) e he)
      cases hE : a.directory_entries.isEmpty with
      | true =>
        have : a.directory_entries = [] := by
          cases hL : a.directory_entries with
          | nil => rfl
          | cons x xs => rw [hL] at hE; simp at hE
        simp [h, hE, this]
      | false =>
        constructor
        · rintro (⟨(⟨hs, hn⟩ | ⟨hc, _⟩), hn2⟩ | ⟨_, hm⟩)
          · exact ⟨hs, Or.inr hn⟩
          · exact Bool.noConfusion hc
          · exact ⟨hall _ hm, Or.inl rfl⟩
        · rintro ⟨hs, _⟩
          by_cases hm : p ∈ a.directory_entries
          · exact Or.inr ⟨rfl, hm⟩
          · exact Or.inl ⟨Or.inl ⟨hs, hm⟩, hm⟩
  · have hflag : (toggle_select_all (toggle_select_all a)).all_selected =
        !is_current_dir_all_selected (toggle_select_all a) := rfl
    rw [hflag, all_selected_after_toggle]
    cases h : is_current_dir_all_selected a <;>
      cases hE : a.directory_entries.isEmpty <;> simp [h, hE]

/-- A partially selected listing: entry `a` selected, entry `b` not. -/
def app_partsel : App :=
  { app0 with directory_entries := [["a"], ["b"]], selected_items := [["a"]] }

/-- C1 (counterexample): two `toggle_select_all` calls from the partially
selected state do not restore the selection set — the previously selected
entry `a` is gone. -/
theorem toggle_twice_loses_partial_selection :
    (["a"] : FsPath) ∈ app_partsel.selected_items ∧
    (["a"] : FsPath) ∉
      (toggle_select_all (toggle_select_all app_partsel)).selected_items := by
  decide

/-! ### C4: cursor reset and clamping around collection changes -/

/-- Collection with three files. -/
def coll_A : Collection :=
  { name := "A", files := [["p"], ["q"], ["r"]], num_files := 3, timestamp := 0 }

/-- Collection with one file. -/
def coll_B : Collection :=
  { name := "B", files := [["p"]], num_files := 1, timestamp := 0 }

/-- Collection cursor on `coll_A`, intra-collection file cursor on its
third file. -/
def app_del : App :=
  { app0 with
    collections := [coll_A, coll_B],
    selected_file_in_collection_index := 2 }

/-- C4 (counterexample): deleting the selected collection leaves the
intra-collection file cursor at 2 while the collection now under the
cursor has a single file — the cursor is neither reset to 0 nor clamped,
so `0 <= index < len` fails with `len > 0`. -/
theorem remove_collection_dangling_file_cursor :
    (remove_selected_collection app_del).map
        (fun a2 => (a2.selected_file_in_collection_index,
          a2.collections.map (fun c => c.files.length))) =
      some (2, [1]) := by decide

/-- C4 (amended): moving the collection cursor (either direction) resets
the intra-collection file cursor to 0 whenever it actually moves, and
`remove_selected_collection` clamps the collection cursor back into
range; but it leaves the intra-collection file cursor untouched. -/
theorem cursor_reset_and_clamp (a : App) :
    ((collections_pane_down a).selected_file_in_collection_index =
      if a.selected_collection_index + 1 < a.collections.length then 0
      else a.selected_file_in_collection_index) ∧
    ((collections_pane_up a).selected_file_in_collection_index =
      if 0 < a.selected_collection_index then 0
      else a.selected_file_in_collection_index) ∧
    (∀ a2, a.selected_collection_index < a.collections.length →
      remove_selected_collection a = some a2 →
      a2.collections.length + 1 = a.collections.length ∧
      (a2.collections ≠ [] →
        a2.selected_collection_index < a2.collections.length) ∧
      a2.selected_file_in_collection_index =
        a.selected_file_in_collection_index) := by
  refine ⟨?_, ?_, ?_⟩
  · by_cases h : a.selected_collection_index + 1 < a.collections.length <;>
      simp [collections_pane_down, h]
  · by_cases h : 0 < a.selected_collection_index <;>
      simp [collections_pane_up, h]
  · intro a2 hlt hrun
    have hne : a.collections.isEmpty = false := by
      cases hL : a.collections with
      | nil => rw [hL] at hlt; simp at hlt
      | cons x xs => simp
    rw [remove_selected_collection] at hrun
    simp only [hne, Bool.false_eq_true, if_false, hlt, if_true] at hrun
    have hlen : (a.collections.eraseIdx a.selected_collection_index).length =
        a.collections.length - 1 := by
      rw [List.length_eraseIdx]
      simp [hlt]
    cases hrun
    dsimp only
    refine ⟨by rw [hlen]; omega, ?_, rfl⟩
    intro hne2
    have hpos : 0 < (a.collections.eraseIdx a.selected_collection_index).length :=
      List.length_pos.mpr hne2
    rw [hlen] at hpos ⊢
    split <;> omega

/-! ### C8: removing a collection member -/

/-- C8: with the collection cursor on an existing collection,
`unselect_file_from_collection` is a no-op when the store or the file
list is empty; with an in-range file cursor it removes the file, keeps
`num_files` equal to the file list's length, and leaves the file cursor
inside `[0, len-1]` whenever the list stays non-empty. -/
theorem unselect_member_invariants (a : App) :
    (a.collections = [] → unselect_file_from_collection a = some a) ∧
    (∀ c, a.collections[a.selected_collection_index]? = some c →
      (c.files = [] → unselect_file_from_collection a = some a) ∧
      (a.selected_file_in_collection_index < c.files.length →
        ∃ a2, unselect_file_from_collection a = some a2 ∧
          a2.selected_collection_index = a.selected_collection_index ∧
          ∀ c2, a2.collections[a.selected_collection_index]? = some c2 →
            c2.num_files = c2.files.length ∧
            (0 < c2.files.length →
              a2.selected_file_in_collection_index < c2.files.length))) := by
  constructor
  · intro h; simp [unselect_file_from_collection, h]
  · intro c hc
    have hne : a.collections.isEmpty = false := by
      cases hL : a.collections with
      | nil => rw [hL] at hc; simp at hc
      | cons x xs => simp
    have hsel : a.selected_collection_index < a.collections.length :=
      (List.getElem?_eq_some.mp hc).1
    constructor
    · intro hf
      simp [unselect_file_from_collection, hne, hc, hf]
    · intro hlt
      have hrun : unselect_file_from_collection a =
          some { a with
            collections := a.collections.set a.selected_collection_index
              { c with
                files := c.files.eraseIdx a.selected_file_in_collection_index,
                num_files :=
                  (c.files.eraseIdx a.selected_file_in_collection_index).length },
            selected_file_in_collection_index :=
              if a.selected_file_in_collection_index ≥
                  (c.files.eraseIdx a.selected_file_in_collection_index).length ∧
                  a.selected_file_in_collection_index > 0
              then a.selected_file_in_collection_index - 1
              else a.selected_file_in_collection_index,
            store := a.collections.set a.selected_collection_index
              { c with
                files := c.files.eraseIdx a.selected_file_in_collection_index,
                num_files :=
                  (c.files.eraseIdx a.selected_file_in_collection_index).length },
            store_writes := a.store_writes + 1 } := by
        simp [unselect_file_from_collection, hne, hc, hlt]
      refine ⟨_, hrun, rfl, ?_⟩
      intro c2 hc2
      have hlen1 : (c.files.eraseIdx a.selected_file_in_collection_index).length =
          c.files.length - 1 := by
        rw [List.length_eraseIdx]; simp [hlt]
      dsimp only at hc2
      rw [List.getElem?_set] at hc2
      simp only [if_pos rfl, hsel, if_true] at hc2
      cases hc2
      refine ⟨rfl, ?_⟩
      intro hpos
      dsimp only at hpos ⊢
      rw [hlen1] at hpos ⊢
      split <;> omega

/-! ### C9: rename lifecycle -/

/-- Rename-mode edits touch only the name buffer; the buffer ends up as
the fold of the edit sequence over its starting value. -/
theorem apply_edits_fields (es : List EditOp) (a : App) :
    (apply_edits a es).collections = a.collections ∧
    (apply_edits a es).store = a.store ∧
    (apply_edits a es).store_writes = a.store_writes ∧
    (apply_edits a es).renaming_collection = a.renaming_collection ∧
    (apply_edits a es).selected_collection_index =
      a.selected_collection_index ∧
    (apply_edits a es).new_collection_name =
      build_name a.new_collection_name es := by
  induction es generalizing a with
  | nil => exact ⟨rfl, rfl, rfl, rfl, rfl, rfl⟩
  | cons e rest ih =>
    have h1 : apply_edits a (e :: rest) = apply_edits (apply_edit a e) rest := rfl
    have h2 : build_name a.new_collection_name (e :: rest) =
        build_name (apply_edit a e).new_collection_name rest := by
      cases e <;> rfl
    rw [h1, h2]
    have := ih (apply_edit a e)
    cases e <;> simpa [apply_edit] using this

/-- C9: with the collection cursor on an existing collection,
`start_rename` then any edit sequence then `cancel_rename` leaves the
collections (hence the name) and the persisted store untouched, while
`start_rename`, edits, `confirm_rename` renames the collection to
exactly the buffer built from the edit sequence seeded with the old
name, and writes the store once. -/
theorem rename_lifecycle (a : App) (c : Collection) (es : List EditOp)
    (hc : a.collections[a.selected_collection_index]? = some c) :
    (∃ a1, start_rename a = some a1 ∧
      (cancel_rename (apply_edits a1 es)).collections = a.collections ∧
      (cancel_rename (apply_edits a1 es)).store = a.store ∧
      (cancel_rename (apply_edits a1 es)).store_writes = a.store_writes) ∧
    (∃ a1 a3, start_rename a = some a1 ∧
      confirm_rename (apply_edits a1 es) = some a3 ∧
      a3.collections[a.selected_collection_index]? =
        some { c with name := build_name c.name es } ∧
      a3.store = a3.collections ∧
      a3.store_writes = a.store_writes + 1) := by
  have hne : a.collections.isEmpty = false := by
    cases hL : a.collections with
    | nil => rw [hL] at hc; simp at hc
    | cons x xs => simp
  have hsel : a.selected_collection_index < a.collections.length :=
    (List.getElem?_eq_some.mp hc).1
  have hstart : start_rename a =
      some { a with renaming_collection := true, new_collection_name := c.name } := by
    simp [start_rename, hne, hc]
  set a1 : App :=
    { a with renaming_collection := true, new_collection_name := c.name } with ha1
  obtain ⟨hcoll, hstore, hwrites, hren, hselidx, hbuf⟩ := apply_edits_fields es a1
  have hren2 : (apply_edits a1 es).renaming_collection = true := hren
  have hbuf2 : (apply_edits a1 es).new_collection_name = build_name c.name es := hbuf
  have hcoll2 : (apply_edits a1 es).collections = a.collections := hcoll
  have hsel2 : (apply_edits a1 es).selected_collection_index =
      a.selected_collection_index := hselidx
  constructor
  · refine ⟨a1, hstart, ?_, ?_, ?_⟩ <;>
      simp [cancel_rename, hren2, hcoll2, hstore, hwrites]
  · have hne2 : (apply_edits a1 es).collections.isEmpty = false := by
      rw [hcoll2]; exact hne
    have hget2 : (apply_edits a1 es).collections[(apply_edits a1
        es).selected_collection_index]? = some c := by
      rw [hcoll2, hsel2]; exact hc
    refine ⟨a1,
      { apply_edits a1 es with
        collections := a.collections.set a.selected_collection_index
          { c with name := build_name c.name es },
        store := a.collections.set a.selected_collection_index
          { c with name := build_name c.name es },
        store_writes := a.store_writes + 1,
        renaming_collection := false,
        new_collection_name := "",
        footer_message := some "Collection renamed!",
        message_counter := 5 }, hstart, ?_, ?_, ?_, ?_⟩
    · have hne3 : a.collections ≠ [] := by
        intro h0; rw [h0] at hc; simp at hc
      simp [confirm_rename, hne2, hren2, hget2, hcoll2, hsel2, hbuf2, hwrites,
        hc, hne3]
    · dsimp only
      rw [List.getElem?_set]
      simp [hsel]
    · rfl
    · rfl

/-! ### C6: export payload structure -/

/-- Modelled from the spec's words: the payload is one fenced block per
successfully read file, concatenated in the input order (nothing for a
file that fails to read). -/
def concat_blocks (fs : FSTree) (base : FsPath) : List FsPath → String
  | [] => ""
  | f :: rest => render_block fs base f ++ concat_blocks fs base rest

/-- Filesystem of the C6 example: `home/a.txt` = "hello",
`home/b/c.txt` = "world". -/
def fs_c6 : FSTree :=
  .dir [("home",
    .dir [("a.txt", .file (some "hello")),
          ("b", .dir [("c.txt", .file (some "world"))])])]

/-- C6: the payload the export loop builds is exactly the concatenation,
in input order, of one block per successfully read file — header naming
the path relative to the base, contents between the two fence markers, a
trailing newline — and on the concrete two-file example it is the
expected byte string. -/
theorem export_payload_blocks :
    (∀ (fs : FSTree) (base : FsPath) (files : List FsPath),
      render_payload fs base files = concat_blocks fs base files) ∧
    render_payload fs_c6 ["home"]
        [["home", "a.txt"], ["home", "b", "c.txt"]] =
      "------ a.txt ------\n``````\nhello\n``````\n" ++
        "------ b/c.txt ------\n``````\nworld\n``````\n" := by
  constructor
  · intro fs base files
    suffices h : ∀ (l : List FsPath) (s : String),
        List.foldl
          (fun output item =>
            match read_file fs item with
            | some contents =>
                output ++
                    ("------ " ++ display_path (rel_path base item) ++
                      " ------\n") ++
                  "``````\n" ++ contents ++ "\n``````\n"
            | none => output)
          s l = s ++ concat_blocks fs base l by
      rw [render_payload, h files "", String.empty_append]
    intro l
    induction l with
    | nil => intro s; rw [concat_blocks, String.append_empty, List.foldl_nil]
    | cons f rest ih =>
      intro s
      rw [List.foldl_cons, concat_blocks]
      cases hr : read_file fs f with
      | none =>
          rw [ih]
          simp [render_block, hr, String.empty_append, String.append_assoc]
      | some contents =>
          rw [ih]
          simp [render_block, hr, String.append_assoc]
  · rfl

/-! ### C5: navigation stack discipline -/

/-- One navigation command. -/
inductive NavCmd where
  | descend : NavCmd
  | ascend : NavCmd
deriving DecidableEq

/-- Dispatch of a navigation command (`run_app`, main.rs: `l`/`Enter`
runs `enter_directory`, `h` runs `go_back`). -/
def nav_step (fs : FSTree) (a : App) : NavCmd → Option App
  | .descend => enter_directory fs a
  | .ascend => go_back fs a

/-- Run a command sequence, also counting the descends that pushed a
frame and the ascends that popped one. -/
def nav_run (fs : FSTree) : List NavCmd → App → Option (App × Nat × Nat)
  | [], a => some (a, 0, 0)
  | c :: cs, a =>
    match nav_step fs a c with
    | none => none
    | some a1 =>
      match nav_run fs cs a1 with
      | none => none
      | some (a2, d, u) =>
        match c with
        | .descend =>
            some (a2,
              d + (a1.navigation_stack.length - a.navigation_stack.length), u)
        | .ascend =>
            some (a2, d,
              u + (a.navigation_stack.length - a1.navigation_stack.length))

/-- N descends in a row. -/
def run_desc (fs : FSTree) : Nat → App → Option App
  | 0, a => some a
  | n + 1, a => (enter_directory fs a).bind (run_desc fs n)

/-- N ascends in a row. -/
def run_asc (fs : FSTree) : Nat → App → Option App
  | 0, a => some a
  | n + 1, a => (go_back fs a).bind (run_asc fs n)

/-- A non-panicking descend either leaves the state unchanged or pushes
exactly one frame recording the pre-call directory and cursor. -/
theorem enter_directory_cases (fs : FSTree) (a a1 : App)
    (h : enter_directory fs a = some a1) :
    a1 = a ∨
    ∃ p entries, a.directory_entries[a.selected_file_index]? = some p ∧
      is_dir fs p = true ∧ read_directory fs p = some entries ∧
      a1 = { a with
        navigation_stack :=
          (a.current_dir, a.selected_file_index) :: a.navigation_stack,
        current_dir := p,
        directory_entries := entries,
        selected_file_index := 0 } := by
  rw [enter_directory] at h
  by_cases he : a.directory_entries.isEmpty
  · rw [if_pos he] at h
    cases h
    exact Or.inl rfl
  · rw [if_neg he] at h
    cases hg : a.directory_entries[a.selected_file_index]? with
    | none => rw [hg] at h; cases h
    | some p =>
      rw [hg] at h
      dsimp only at h
      by_cases hd : is_dir fs p = true
      · rw [if_pos hd] at h
        cases hr : read_directory fs p with
        | none => rw [hr] at h; cases h
        | some entries =>
          rw [hr] at h
          dsimp only at h
          cases h
          exact Or.inr ⟨p, entries, rfl, hd, hr, rfl⟩
      · rw [if_neg hd] at h
        cases h
        exact Or.inl rfl

/-- A non-panicking ascend either finds an empty stack and changes
nothing, or pops the top frame and restores directory and cursor from
it. -/
theorem go_back_cases (fs : FSTree) (a a1 : App)
    (h : go_back fs a = some a1) :
    (a.navigation_stack = [] ∧ a1 = a) ∨
    ∃ d i rest entries, a.navigation_stack = (d, i) :: rest ∧
      read_directory fs d = some entries ∧
      a1 = { a with
        current_dir := d,
        directory_entries := entries,
        selected_file_index := i,
        navigation_stack := rest } := by
  rw [go_back] at h
  cases hst : a.navigation_stack with
  | nil =>
    rw [hst] at h
    dsimp only at h
    cases h
    exact Or.inl ⟨rfl, rfl⟩
  | cons top rest =>
    obtain ⟨d, i⟩ := top
    rw [hst] at h
    dsimp only at h
    cases hrd : read_directory fs d with
    | none => rw [hrd] at h; cases h
    | some entries =>
      rw [hrd] at h
      dsimp only at h
      cases h
      exact Or.inr ⟨d, i, rest, entries, rfl, hrd, rfl⟩

/-- Each non-panicking descend grows the stack by zero or one frame. -/
theorem enter_directory_stack_length (fs : FSTree) (a a1 : App)
    (h : enter_directory fs a = some a1) :
    a1.navigation_stack.length = a.navigation_stack.length ∨
    a1.navigation_stack.length = a.navigation_stack.length + 1 := by
  rcases enter_directory_cases fs a a1 h with rfl | ⟨p, entries, _, _, _, rfl⟩
  · exact Or.inl rfl
  · exact Or.inr rfl

/-- Each non-panicking ascend shrinks the stack by zero (empty stack) or
one frame. -/
theorem go_back_stack_length (fs : FSTree) (a a1 : App)
    (h : go_back fs a = some a1) :
    (a1.navigation_stack.length = a.navigation_stack.length ∧
      a.navigation_stack.length = 0) ∨
    a1.navigation_stack.length + 1 = a.navigation_stack.length := by
  rcases go_back_cases fs a a1 h with ⟨hst, rfl⟩ | ⟨d, i, rest, entries, hst, _, rfl⟩
  · exact Or.inl ⟨rfl, by rw [hst]; rfl⟩
  · exact Or.inr (by rw [hst]; rfl)

/-- Bookkeeping of `nav_run`: pushes minus pops equals the stack growth. -/
theorem nav_run_count (fs : FSTree) (cs : List NavCmd) :
    ∀ (a a2 : App) (d u : Nat), nav_run fs cs a = some (a2, d, u) →
      a2.navigation_stack.length + u = a.navigation_stack.length + d := by
  induction cs with
  | nil =>
    intro a a2 d u h
    rw [nav_run] at h
    cases h
    rfl
  | cons c cs ih =>
    intro a a2 d u h
    rw [nav_run] at h
    cases hs : nav_step fs a c with
    | none => rw [hs] at h; cases h
    | some a1 =>
      rw [hs] at h
      dsimp only at h
      cases hr : nav_run fs cs a1 with
      | none => rw [hr] at h; cases h
      | some t =>
        obtain ⟨a3, d1, u1⟩ := t
        rw [hr] at h
        dsimp only at h
        have hmid := ih a1 a3 d1 u1 hr
        cases c with
        | descend =>
          cases h
          have hstep := enter_directory_stack_length fs a a1 hs
          rcases hstep with h1 | h1 <;> omega
        | ascend =>
          cases h
          have hstep := go_back_stack_length fs a a1 hs
          rcases hstep with ⟨h1, h2⟩ | h1 <;> omega

/-- A successful run of descends grows the stack by at most its number of
steps. -/
theorem run_desc_stack_le (fs : FSTree) (n : Nat) :
    ∀ (a a2 : App), run_desc fs n a = some a2 →
      a2.navigation_stack.length ≤ a.navigation_stack.length + n := by
  induction n with
  | zero =>
    intro a a2 h
    rw [run_desc] at h
    cases h
    exact Nat.le_refl _
  | succ n ih =>
    intro a a2 h
    rw [run_desc] at h
    cases h1 : enter_directory fs a with
    | none => rw [h1] at h; cases h
    | some a1 =>
      rw [h1] at h
      dsimp only [Option.bind] at h
      have := ih a1 a2 h
      rcases enter_directory_stack_length fs a a1 h1 with h2 | h2 <;> omega

/-- If a descend pushed, the immediately following ascend pops that
frame and restores the pre-descend directory, cursor and stack, with the
directory re-listed. -/
theorem go_back_pop (fs : FSTree) (a : App) (d : FsPath) (i : Nat)
    (rest : List (FsPath × Nat)) (entries : List FsPath)
    (hst : a.navigation_stack = (d, i) :: rest)
    (hrd : read_directory fs d = some entries) :
    go_back fs a = some { a with
      current_dir := d,
      directory_entries := entries,
      selected_file_index := i,
      navigation_stack := rest } := by
  rw [go_back, hst]
  dsimp only
  rw [hrd]

/-- Appending one more ascend to a run of ascends. -/
theorem run_asc_snoc (fs : FSTree) (n : Nat) :
    ∀ a : App, run_asc fs (n + 1) a = (run_asc fs n a).bind (go_back fs) := by
  induction n with
  | zero =>
    intro a
    cases hg : go_back fs a with
    | none => simp [run_asc, hg]
    | some a1 => simp [run_asc, hg]
  | succ n ih =>
    intro a
    rw [run_asc]
    cases hg : go_back fs a with
    | none =>
      rw [show run_asc fs (n + 1) a = (go_back fs a).bind (run_asc fs n) from rfl,
        hg]
      rfl
    | some a1 =>
      dsimp only [Option.bind]
      rw [ih a1]
      rw [show run_asc fs (n + 1) a = (go_back fs a).bind (run_asc fs n) from rfl,
        hg]
      rfl

/-- The round trip: after N descends that each pushed a frame, N ascends
succeed and restore the original directory, cursor and stack (the
original directory must still be listable, which the final ascend
re-does). -/
theorem run_desc_roundtrip (fs : FSTree) (N : Nat) :
    ∀ (a a2 : App),
      (read_directory fs a.current_dir).isSome = true →
      run_desc fs N a = some a2 →
      a2.navigation_stack.length = a.navigation_stack.length + N →
      ∃ a3, run_asc fs N a2 = some a3 ∧
        a3.current_dir = a.current_dir ∧
        a3.selected_file_index = a.selected_file_index ∧
        a3.navigation_stack = a.navigation_stack := by
  induction N with
  | zero =>
    intro a a2 _ h _
    rw [run_desc] at h
    cases h
    exact ⟨a, rfl, rfl, rfl, rfl⟩
  | succ n ih =>
    intro a a2 hread h hlen
    rw [run_desc] at h
    cases h1 : enter_directory fs a with
    | none => rw [h1] at h; cases h
    | some a1 =>
      rw [h1] at h
      dsimp only [Option.bind] at h
      have hub := run_desc_stack_le fs n a1 a2 h
      rcases enter_directory_cases fs a a1 h1 with rfl | ⟨p, entries1, hg, hd, hr, ha1⟩
      · omega
      · have hread1 : (read_directory fs a1.current_dir).isSome = true := by
          rw [ha1]
          dsimp only
          rw [hr]
          rfl
        have hstack1 : a1.navigation_stack =
            (a.current_dir, a.selected_file_index) :: a.navigation_stack := by
          rw [ha1]
        have hlen1 : a2.navigation_stack.length =
            a1.navigation_stack.length + n := by
          rw [hstack1]
          dsimp only [List.length_cons]
          omega
        obtain ⟨a3, hasc, hdir, hidx, hstk⟩ := ih a1 a2 hread1 h hlen1
        obtain ⟨entries0, hrd0⟩ := Option.isSome_iff_exists.mp hread
        have hstk3 : a3.navigation_stack =
            (a.current_dir, a.selected_file_index) :: a.navigation_stack := by
          rw [hstk, hstack1]
        have hpop := go_back_pop fs a3 a.current_dir a.selected_file_index
          a.navigation_stack entries0 hstk3 hrd0
        refine ⟨{ a3 with
            current_dir := a.current_dir,
            directory_entries := entries0,
            selected_file_index := a.selected_file_index,
            navigation_stack := a.navigation_stack }, ?_, rfl, rfl, rfl⟩
        rw [run_asc_snoc fs n a2, hasc]
        dsimp only [Option.bind]
        exact hpop

/-- C5: over a fixed filesystem, (i) after any successful sequence of
descend/ascend commands the navigation stack has grown by exactly the
number of frame-pushing descends minus the number of frame-popping
ascends (so, starting from an empty stack, its length is the net number
of unmatched descends), and (ii) after N descends that each entered a
directory, N ascends return to the exact original directory, cursor and
stack. -/
theorem navigation_stack_discipline (fs : FSTree) :
    (∀ (cs : List NavCmd) (a a2 : App) (d u : Nat),
      nav_run fs cs a = some (a2, d, u) →
      a2.navigation_stack.length + u = a.navigation_stack.length + d) ∧
    (∀ (N : Nat) (a a2 : App),
      (read_directory fs a.current_dir).isSome = true →
      run_desc fs N a = some a2 →
      a2.navigation_stack.length = a.navigation_stack.length + N →
      ∃ a3, run_asc fs N a2 = some a3 ∧
        a3.current_dir = a.current_dir ∧
        a3.selected_file_index = a.selected_file_index ∧
        a3.navigation_stack = a.navigation_stack) :=
  ⟨fun cs => nav_run_count fs cs, fun N => run_desc_roundtrip fs N⟩

/-- A two-level filesystem for the navigation witness. -/
def fs_nav : FSTree := .dir [("sub", .dir [("leaf", .file (some "z"))])]

/-- Start state at the root of `fs_nav`, listing shown. -/
def app_nav : App := { app0 with directory_entries := [["sub"]] }

/-- The state after descending into `sub`. -/
def app_nav1 : App :=
  { app_nav with
    navigation_stack := [([], 0)],
    current_dir := ["sub"],
    directory_entries := [["sub", "leaf"]],
    selected_file_index := 0 }

/-- Witness for `navigation_stack_discipline`: on the concrete two-level
tree, one descend then one ascend restores directory, cursor and stack,
and the counting equation holds for the two-command run. -/
theorem navigation_stack_discipline_witness :
    (∃ a3, run_asc fs_nav 1 app_nav1 = some a3 ∧
      a3.current_dir = app_nav.current_dir ∧
      a3.selected_file_index = app_nav.selected_file_index ∧
      a3.navigation_stack = app_nav.navigation_stack) ∧
    app_nav1.navigation_stack.length + 0 =
      app_nav.navigation_stack.length + 1 :=
  ⟨(navigation_stack_discipline fs_nav).2 1 app_nav app_nav1 rfl rfl rfl,
   (navigation_stack_discipline fs_nav).1 [NavCmd.descend] app_nav app_nav1 1 0
     rfl⟩

/-- Witness for `toggle_select_all_twice` at the concrete partially
selected state. -/
theorem toggle_select_all_twice_witness :
    (toggle_select_all (toggle_select_all app_partsel)).all_selected =
      (is_current_dir_all_selected app_partsel &&
        !app_partsel.directory_entries.isEmpty) :=
  (toggle_select_all_twice app_partsel).2

/-- State after deleting the selected collection of `app_del`. -/
def app_del_after : App :=
  { app_del with
    collections := [coll_B],
    store := [coll_B],
    store_writes := 1 }

/-- Witness for `cursor_reset_and_clamp` at the concrete two-collection
state. -/
theorem cursor_reset_and_clamp_witness :
    app_del_after.collections.length + 1 = app_del.collections.length ∧
    app_del_after.selected_collection_index <
      app_del_after.collections.length :=
  ⟨((cursor_reset_and_clamp app_del).2.2 app_del_after (by decide)
      (by decide)).1,
   ((cursor_reset_and_clamp app_del).2.2 app_del_after (by decide)
      (by decide)).2.1 (by decide)⟩

/-- A collection with no files. -/
def coll_E : Collection :=
  { name := "E", files := [], num_files := 0, timestamp := 0 }

/-- A store holding only the empty collection. -/
def app_files_empty : App := { app0 with collections := [coll_E] }

/-- Witness for `unselect_member_invariants`: the no-op branches on the
empty store and on the empty file list, concretely. -/
theorem unselect_member_invariants_witness :
    unselect_file_from_collection app0 = some app0 ∧
    unselect_file_from_collection app_files_empty = some app_files_empty :=
  ⟨(unselect_member_invariants app0).1 rfl,
   ((unselect_member_invariants app_files_empty).2 coll_E rfl).1 rfl⟩

/-- A store holding `coll_A` only, for the rename witness. -/
def app_ren : App := { app0 with collections := [coll_A] }

/-- Witness for `rename_lifecycle`: concrete store, concrete edit
sequence (append two characters, delete one). -/
theorem rename_lifecycle_witness :
    (∃ a1, start_rename app_ren = some a1 ∧
      (cancel_rename (apply_edits a1 [.ins 'X', .ins 'Y', .del])).collections =
        app_ren.collections ∧
      (cancel_rename (apply_edits a1 [.ins 'X', .ins 'Y', .del])).store =
        app_ren.store ∧
      (cancel_rename (apply_edits a1 [.ins 'X', .ins 'Y', .del])).store_writes =
        app_ren.store_writes) ∧
    (∃ a1 a3, start_rename app_ren = some a1 ∧
      confirm_rename (apply_edits a1 [.ins 'X', .ins 'Y', .del]) = some a3 ∧
      a3.collections[app_ren.selected_collection_index]? =
        some { coll_A with
          name := build_name coll_A.name [.ins 'X', .ins 'Y', .del] } ∧
      a3.store = a3.collections ∧
      a3.store_writes = app_ren.store_writes + 1) :=
  rename_lifecycle app_ren coll_A [.ins 'X', .ins 'Y', .del] rfl
